import Mathlib

/-!
Verification of the MovieProject movie-collection manager.

The development shallowly embeds the persistence layer
(`src/storage/movie_storage_sql.py`), the query/analytics functions and the
metadata-assisted add flow (`src/movies.py`), and the OMDb client
(`src/movie_api.py`).

Modelling conventions:
- The SQLite `movies` table (columns `user_id, title, year, rating, poster`,
  constraint `UNIQUE (user_id, title)`) is a list of rows in rowid order.
  The `id` autoincrement column is never read by the program and is omitted.
- SQLite `REAL` ratings are modelled as exact rationals, `TEXT` as `String`,
  nullable `poster` as `Option String`.
- The Python dict returned by `list_movies` preserves row order and has
  unique keys (guaranteed by the UNIQUE constraint); it is modelled as an
  association list in row order.
- Python functions that end without a `return` statement return `None`;
  this is modelled explicitly with `PyVal.none`.
- A SQLAlchemy `IntegrityError` raised by a violated UNIQUE constraint is
  modelled as `StoreError.duplicateTitle`.
-/

/-- One row of the `movies` table of `src/storage/movie_storage_sql.py`. -/
structure MovieRow where
  user_id : Nat
  title : String
  year : Int
  rating : ℚ
  poster : Option String
deriving DecidableEq

/-- The `movies` table, in rowid (insertion) order. -/
abbrev Table := List MovieRow

/-- Value part of one entry of the dict built by `list_movies`. -/
structure MovieInfo where
  year : Int
  rating : ℚ
  poster : Option String
deriving DecidableEq

/-- Python values, used where a modelled function can return `None`. -/
inductive PyVal where
  | none
  | int (n : Int)
deriving DecidableEq

/-- Python exceptions that the modelled code can raise. -/
inductive PyError where
  | movieAPIError
  | jsonDecodeError
  | typeError
  | statisticsError
  | valueError
deriving DecidableEq

/-- Storage-layer errors: a violated UNIQUE constraint surfaces as a
SQLAlchemy IntegrityError, which the per-user storage variant does not catch. -/
inductive StoreError where
  | duplicateTitle
deriving DecidableEq

/-- The WHERE clause `user_id = :uid AND title = :title` used by the
delete and update statements and by the UNIQUE (user_id, title) constraint. -/
def rowKeyMatches (uid : Nat) (title : String) (r : MovieRow) : Bool :=
  r.user_id == uid && r.title == title

/-- The UNIQUE (user_id, title) constraint of the `movies` table, as a
well-formedness invariant on the modelled table. -/
def UniqueKeys (tbl : Table) : Prop :=
  List.Pairwise (fun r s => ¬(r.user_id = s.user_id ∧ r.title = s.title)) tbl

instance : DecidablePred UniqueKeys := fun tbl => by
  unfold UniqueKeys
  infer_instance

/-- Embedding of `list_movies(user_id)` (storage/movie_storage_sql.py:72):
SELECT title, year, rating, poster FROM movies WHERE user_id = :uid,
then build a dict keyed by title in row order. -/
def list_movies (tbl : Table) (uid : Nat) : List (String × MovieInfo) :=
  (tbl.filter (fun r => r.user_id == uid)).map
    (fun r => (r.title, ⟨r.year, r.rating, r.poster⟩))

/-- Embedding of `add_movie(user_id, title, year, rating, poster)`
(storage/movie_storage_sql.py:87): a single INSERT.  If a row with the same
(user_id, title) already exists, SQLite rejects the INSERT via the UNIQUE
constraint, SQLAlchemy raises IntegrityError (uncaught here) and nothing is
written; otherwise the row is appended and committed. -/
def add_movie (tbl : Table) (uid : Nat) (title : String) (year : Int)
    (rating : ℚ) (poster : Option String) : Except StoreError Unit × Table :=
  if tbl.any (rowKeyMatches uid title) then
    (.error .duplicateTitle, tbl)
  else
    (.ok (), tbl ++ [⟨uid, title, year, rating, poster⟩])

/-- Row count of `DELETE FROM movies WHERE user_id = :uid AND title = :title`:
the number of rows the statement removes.  The Python wrapper never reads it. -/
def sql_delete_count (tbl : Table) (uid : Nat) (title : String) : Nat :=
  (tbl.filter (rowKeyMatches uid title)).length

/-- Embedding of `delete_movie(user_id, title)`
(storage/movie_storage_sql.py:105): runs the DELETE, commits, and falls off
the end of the function, so it returns Python `None` (not a row count). -/
def delete_movie (tbl : Table) (uid : Nat) (title : String) : PyVal × Table :=
  (PyVal.none, tbl.filter (fun r => !rowKeyMatches uid title r))

/-- Embedding of `update_movie(user_id, title, rating)`
(storage/movie_storage_sql.py:114): UPDATE movies SET rating = :rating
WHERE user_id = :uid AND title = :title, commit, and fall off the end of
the function, so it returns Python `None` (not a row count). -/
def update_movie (tbl : Table) (uid : Nat) (title : String) (rating : ℚ) :
    PyVal × Table :=
  (PyVal.none,
   tbl.map (fun r =>
     if rowKeyMatches uid title r then { r with rating := rating } else r))

/-- Evaluation of the Python comparison `rows > 0` (movies.py:307), where
`rows` may be `None`: comparing `None` with an int raises TypeError. -/
def pyGtZero (v : PyVal) : Except PyError Bool :=
  match v with
  | .int n => .ok (decide (0 < n))
  | .none => .error .typeError

/-- A key occurs among the titles of a user's snapshot iff some table row
matches it. -/
theorem mem_keys_list_movies (tbl : Table) (uid : Nat) (t : String) :
    t ∈ (list_movies tbl uid).map Prod.fst ↔
      ∃ r ∈ tbl, rowKeyMatches uid t r = true := by
  unfold list_movies rowKeyMatches
  simp only [List.map_map, List.mem_map, List.mem_filter, Function.comp,
    Bool.and_eq_true, beq_iff_eq]
  constructor
  · rintro ⟨r, ⟨hr, hu⟩, ht⟩
    exact ⟨r, hr, by simp [hu, ht]⟩
  · rintro ⟨r, hr, hu, ht⟩
    exact ⟨r, ⟨hr, hu⟩, ht⟩

/-- C1: adding a movie whose (user, title) pair already exists fails with
the surfaced uniqueness-violation error and leaves the table (hence the
stored record) unchanged; an add with a fresh key appends exactly the full
record in one atomic step. -/
theorem add_movie_duplicate_rejected_fresh_persisted (tbl : Table) (uid : Nat)
    (title : String) (year : Int) (rating : ℚ) (poster : Option String) :
    ((∃ r ∈ tbl, rowKeyMatches uid title r = true) →
        add_movie tbl uid title year rating poster = (.error .duplicateTitle, tbl))
    ∧ ((∀ r ∈ tbl, rowKeyMatches uid title r = false) →
        add_movie tbl uid title year rating poster =
          (.ok (), tbl ++ [⟨uid, title, year, rating, poster⟩])) := by
  constructor
  · intro h
    unfold add_movie
    rw [if_pos (List.any_eq_true.mpr (by simpa using h))]
  · intro h
    unfold add_movie
    rw [if_neg]
    simp only [List.any_eq_true, not_exists]
    intro r hc
    exact absurd hc.2 (by simp [h r hc.1])

/-- Witness for the C1 theorem at a concrete table: the duplicate add is
rejected with the table intact, and a fresh add appends the record. -/
theorem add_movie_duplicate_rejected_fresh_persisted_witness :
    add_movie [⟨1, "Batman", 1989, 15/2, Option.none⟩] 1 "Batman" 1989 (15/2) Option.none
        = (.error .duplicateTitle, [⟨1, "Batman", 1989, 15/2, Option.none⟩])
    ∧ add_movie [⟨1, "Batman", 1989, 15/2, Option.none⟩] 1 "Heat" 1995 (41/5) Option.none
        = (.ok (), [⟨1, "Batman", 1989, 15/2, Option.none⟩,
                    ⟨1, "Heat", 1995, 41/5, Option.none⟩]) := by
  constructor
  · exact (add_movie_duplicate_rejected_fresh_persisted
      [⟨1, "Batman", 1989, 15/2, Option.none⟩] 1 "Batman" 1989 (15/2) Option.none).1
      (by decide)
  · exact (add_movie_duplicate_rejected_fresh_persisted
      [⟨1, "Batman", 1989, 15/2, Option.none⟩] 1 "Heat" 1995 (41/5) Option.none).2
      (by decide)

/-- Splitting a list by a predicate preserves total length. -/
theorem length_filter_add_length_filter_not (tbl : Table) (p : MovieRow → Bool) :
    (tbl.filter p).length + (tbl.filter (fun r => !p r)).length = tbl.length := by
  induction tbl with
  | nil => simp
  | cons s rest ih =>
    by_cases hs : p s = true <;> simp [List.filter_cons, hs] <;> omega

/-- Under the UNIQUE (user_id, title) constraint, at most one row matches a
given key. -/
theorem filter_rowKeyMatches_length_le_one (tbl : Table) (uid : Nat)
    (title : String) (hu : UniqueKeys tbl) :
    (tbl.filter (rowKeyMatches uid title)).length ≤ 1 := by
  induction tbl with
  | nil => simp
  | cons r rest ih =>
    have hu' : UniqueKeys rest := (List.pairwise_cons.mp hu).2
    have hr : ∀ s ∈ rest, ¬(r.user_id = s.user_id ∧ r.title = s.title) :=
      (List.pairwise_cons.mp hu).1
    by_cases hm : rowKeyMatches uid title r = true
    · have hnone : rest.filter (rowKeyMatches uid title) = [] := by
        rw [List.filter_eq_nil_iff]
        intro s hs hsm
        have h1 : r.user_id = uid ∧ r.title = title := by
          have := hm
          unfold rowKeyMatches at this
          simp only [Bool.and_eq_true, beq_iff_eq] at this
          exact this
        have h2 : s.user_id = uid ∧ s.title = title := by
          unfold rowKeyMatches at hsm
          simp only [Bool.and_eq_true, beq_iff_eq] at hsm
          exact hsm
        exact hr s hs ⟨h1.1.trans h2.1.symm, h1.2.trans h2.2.symm⟩
      simp [List.filter_cons, hm, hnone]
    · simp only [List.filter_cons, Bool.not_eq_true] at *
      rw [hm]
      exact ih hu'

/-- If a matching row is present, the DELETE's row count is exactly one. -/
theorem sql_delete_count_eq_one (tbl : Table) (uid : Nat) (title : String)
    (hu : UniqueKeys tbl) (row : MovieRow) (hrow : row ∈ tbl)
    (hm : rowKeyMatches uid title row = true) :
    sql_delete_count tbl uid title = 1 := by
  have hle := filter_rowKeyMatches_length_le_one tbl uid title hu
  have hge : 1 ≤ (tbl.filter (rowKeyMatches uid title)).length := by
    have : row ∈ tbl.filter (rowKeyMatches uid title) :=
      List.mem_filter.mpr ⟨hrow, hm⟩
    exact List.length_pos.mpr (fun hnil => by simp [hnil] at this)
  unfold sql_delete_count
  omega

/-- C2 (amended): the DELETE affects 0 or 1 rows; deleting an absent title
is not an error, affects 0 rows and leaves the table unchanged; deleting a
present title removes exactly that one record, after which the title no
longer appears in the user's listing.  The Python wrapper itself returns
`None`, not the count. -/
theorem delete_movie_removes_at_most_one (tbl : Table) (uid : Nat)
    (title : String) (hu : UniqueKeys tbl) :
    sql_delete_count tbl uid title ≤ 1
    ∧ ((∀ r ∈ tbl, rowKeyMatches uid title r = false) →
        sql_delete_count tbl uid title = 0
        ∧ delete_movie tbl uid title = (PyVal.none, tbl))
    ∧ (∀ row ∈ tbl, rowKeyMatches uid title row = true →
        sql_delete_count tbl uid title = 1
        ∧ (delete_movie tbl uid title).2.length + 1 = tbl.length
        ∧ (∀ r : MovieRow, r ∈ (delete_movie tbl uid title).2 ↔
            r ∈ tbl ∧ rowKeyMatches uid title r = false)
        ∧ title ∉ (list_movies (delete_movie tbl uid title).2 uid).map Prod.fst) := by
  refine ⟨filter_rowKeyMatches_length_le_one tbl uid title hu, ?_, ?_⟩
  · intro h
    constructor
    · unfold sql_delete_count
      rw [List.filter_eq_nil_iff.mpr (fun r hr => by simp [h r hr])]
      rfl
    · unfold delete_movie
      rw [List.filter_eq_self.mpr (fun r hr => by simp [h r hr])]
  · intro row hrow hm
    refine ⟨sql_delete_count_eq_one tbl uid title hu row hrow hm, ?_, ?_, ?_⟩
    · unfold delete_movie
      have hsplit := length_filter_add_length_filter_not tbl (rowKeyMatches uid title)
      have h1 := sql_delete_count_eq_one tbl uid title hu row hrow hm
      unfold sql_delete_count at h1
      simp only []
      omega
    · intro r
      unfold delete_movie
      simp [List.mem_filter]
    · rw [mem_keys_list_movies]
      rintro ⟨r, hr, hrm⟩
      unfold delete_movie at hr
      simp only [List.mem_filter, Bool.not_eq_true'] at hr
      exact absurd hrm (by simp [hr.2])

/-- Witness for the C2 theorem at a concrete table: deleting an absent
title leaves the table unchanged with count 0, and deleting the present
title gives count 1. -/
theorem delete_movie_removes_at_most_one_witness :
    (sql_delete_count [⟨1, "Batman", 1989, 15/2, Option.none⟩] 1 "Heat" = 0
      ∧ delete_movie [⟨1, "Batman", 1989, 15/2, Option.none⟩] 1 "Heat"
          = (PyVal.none, [⟨1, "Batman", 1989, 15/2, Option.none⟩]))
    ∧ sql_delete_count [⟨1, "Batman", 1989, 15/2, Option.none⟩] 1 "Batman" = 1 := by
  constructor
  · exact (delete_movie_removes_at_most_one
      [⟨1, "Batman", 1989, 15/2, Option.none⟩] 1 "Heat" (by decide)).2.1 (by decide)
  · exact ((delete_movie_removes_at_most_one
      [⟨1, "Batman", 1989, 15/2, Option.none⟩] 1 "Batman" (by decide)).2.2
      ⟨1, "Batman", 1989, 15/2, Option.none⟩ (by simp) (by decide)).1

/-- C2 counterexample: as stated, the claim says `delete(user_id, title)`
returns a removed count of 0 or 1.  The Python function has no return
statement: on a table holding (user 1, "Batman"), deleting that present
title returns `None`, which is neither the int 0 nor the int 1. -/
theorem delete_movie_returns_none_not_count :
    (delete_movie [⟨1, "Batman", 1989, 15/2, Option.none⟩] 1 "Batman").1 = PyVal.none
    ∧ (delete_movie [⟨1, "Batman", 1989, 15/2, Option.none⟩] 1 "Batman").1 ≠ PyVal.int 0
    ∧ (delete_movie [⟨1, "Batman", 1989, 15/2, Option.none⟩] 1 "Batman").1 ≠ PyVal.int 1 := by
  refine ⟨rfl, by decide, by decide⟩

/-- C10: movies are isolated per user.  Any add, delete or update performed
with user id `u` leaves the listing of a different user `v` unchanged, and a
user owning no rows lists the empty mapping. -/
theorem per_user_isolation (tbl : Table) (u v : Nat) (t : String) (y : Int)
    (r q : ℚ) (p : Option String) (hvu : v ≠ u) :
    list_movies (add_movie tbl u t y r p).2 v = list_movies tbl v
    ∧ list_movies (delete_movie tbl u t).2 v = list_movies tbl v
    ∧ list_movies (update_movie tbl u t q).2 v = list_movies tbl v
    ∧ ((∀ row ∈ tbl, row.user_id ≠ v) → list_movies tbl v = []) := by
  refine ⟨?_, ?_, ?_, ?_⟩
  · unfold add_movie
    by_cases h : tbl.any (rowKeyMatches u t) = true
    · rw [if_pos h]
    · rw [if_neg h]
      unfold list_movies
      rw [List.filter_append, List.map_append]
      have : List.filter (fun r => r.user_id == v) [(⟨u, t, y, r, p⟩ : MovieRow)] = [] := by
        simp [Ne.symm hvu]
      rw [this, List.map_nil, List.append_nil]
  · unfold delete_movie list_movies
    simp only []
    congr 1
    induction tbl with
    | nil => rfl
    | cons s rest ih =>
      by_cases hs : s.user_id = u
      · by_cases hm : rowKeyMatches u t s = true
        · have hv : (s.user_id == v) = false := by simp [hs, Ne.symm hvu]
          simp [List.filter_cons, hm, hv, ih]
        · simp only [List.filter_cons, hm, Bool.not_false, if_true, Bool.not_true]
          simp [List.filter_cons, ih]
      · have hm : rowKeyMatches u t s = false := by
          unfold rowKeyMatches
          simp [hs]
        simp [List.filter_cons, hm, ih]
  · unfold update_movie list_movies
    simp only []
    induction tbl with
    | nil => rfl
    | cons s rest ih =>
      by_cases hm : rowKeyMatches u t s = true
      · have hs : s.user_id = u := by
          unfold rowKeyMatches at hm
          simp only [Bool.and_eq_true, beq_iff_eq] at hm
          exact hm.1
        have hv : (s.user_id == v) = false := by simp [hs, Ne.symm hvu]
        simp [List.filter_cons, hm, hv, ih]
      · simp only [Bool.not_eq_true] at hm
        by_cases hv : (s.user_id == v) = true
        · simp [List.filter_cons, hm, hv, ih]
        · simp only [Bool.not_eq_true] at hv
          simp [List.filter_cons, hm, hv, ih]
  · intro h
    unfold list_movies
    rw [List.filter_eq_nil_iff.mpr (fun row hrow => by simp [h row hrow])]
    rfl

/-- Witness for the C10 theorem: operations by user 1 leave user 2's
listing unchanged, and user 2 with no rows lists the empty mapping. -/
theorem per_user_isolation_witness :
    list_movies (add_movie [⟨1, "Batman", 1989, 15/2, Option.none⟩] 1 "Heat" 1995 (41/5) Option.none).2 2 = []
    ∧ list_movies [⟨1, "Batman", 1989, 15/2, Option.none⟩] 2 = [] := by
  have h := per_user_isolation [⟨1, "Batman", 1989, 15/2, Option.none⟩]
    1 2 "Heat" 1995 (41/5) (41/5) Option.none (by decide)
  refine ⟨?_, h.2.2.2 (by simp)⟩
  rw [h.1]
  exact h.2.2.2 (by simp)

/-- Result printed by one pass of the movies.py update-movie loop body. -/
inductive UpdateCliResult where
  | cancelled
  | updatedWithNote
  | couldNotBeUpdated
  | notFoundRetry
deriving DecidableEq

/-- Embedding of the movies.py `update_movie` flow (movies.py:287) for one
entered title: when the title is in the user's snapshot, it prompts for a
note, calls the storage update (which binds the note into the rating column
and, having no return statement, returns `None`), and then evaluates
`rows > 0` on that return value.  `noteAsRating` is the value SQLite stores
in the REAL rating column for the bound note string. -/
def update_movie_cli (tbl : Table) (uid : Nat) (title : String)
    (noteAsRating : ℚ) : Except PyError UpdateCliResult × Table :=
  if (list_movies tbl uid).any (fun p => p.1 == title) then
    match update_movie tbl uid title noteAsRating with
    | (rows, tbl') =>
      match pyGtZero rows with
      | .error e => (.error e, tbl')
      | .ok true => (.ok .updatedWithNote, tbl')
      | .ok false => (.ok .couldNotBeUpdated, tbl')
  else
    (.ok .notFoundRetry, tbl)

/-- C3 (code bug): updating an existing movie runs the storage update and
then crashes.  With user 1 owning "Batman", the storage `update_movie`
returns `None` instead of the affected row count, so the caller's check
`rows > 0` (movies.py:307) raises TypeError; the record itself was already
rewritten by the UPDATE statement before the crash. -/
theorem update_movie_cli_type_error :
    update_movie_cli [⟨1, "Batman", 1989, 15/2, Option.none⟩] 1 "Batman" 5
        = (.error .typeError, [⟨1, "Batman", 1989, 5, Option.none⟩])
    ∧ (update_movie [⟨1, "Batman", 1989, 15/2, Option.none⟩] 1 "Batman" 5).1
        = PyVal.none := by
  constructor
  · rfl
  · rfl

/-- The list of ratings of a snapshot, in snapshot order
(`[info["rating"] for info in movies.values()]`, movies.py:323). -/
def ratingsOf (ms : List (String × MovieInfo)) : List ℚ :=
  ms.map (fun p => p.2.rating)

/-- Python sorted() on a list of ratings (ascending), as used inside
statistics.median.  The sorted sequence of values is unique, so a stable
insertion sort is a faithful model. -/
def sortQ (l : List ℚ) : List ℚ := List.insertionSort (· ≤ ·) l

/-- Embedding of statistics.mean: exact sum over count; raises
StatisticsError on empty data. -/
def meanE (l : List ℚ) : Except PyError ℚ :=
  if l.length = 0 then .error .statisticsError else .ok (l.sum / l.length)

/-- Value computed by statistics.median on nonempty data: the middle of the
sorted data, or the average of the two middles when the count is even. -/
def medianVal (l : List ℚ) : ℚ :=
  if l.length % 2 = 1 then (sortQ l).getD (l.length / 2) 0
  else ((sortQ l).getD (l.length / 2 - 1) 0 + (sortQ l).getD (l.length / 2) 0) / 2

/-- Embedding of statistics.median; raises StatisticsError on empty data. -/
def medianE (l : List ℚ) : Except PyError ℚ :=
  if l.length = 0 then .error .statisticsError else .ok (medianVal l)

/-- Embedding of Python max() on a list; raises ValueError on empty data. -/
def maxE : List ℚ → Except PyError ℚ
  | [] => .error .valueError
  | x :: xs => .ok (xs.foldl max x)

/-- Embedding of Python min() on a list; raises ValueError on empty data. -/
def minE : List ℚ → Except PyError ℚ
  | [] => .error .valueError
  | x :: xs => .ok (xs.foldl min x)

/-- The values computed and displayed by `stats()` (movies.py:316). -/
structure StatsOut where
  average : ℚ
  median : ℚ
  best : List String
  worst : List String
deriving DecidableEq

/-- Embedding of `stats()` (movies.py:316): an empty snapshot is reported
early (`No movies in the database yet`, modelled as `some-free` result
`none`); otherwise mean, median, max and min are computed in program order
and the best/worst title lists are built by filtering the snapshot. -/
def stats (ms : List (String × MovieInfo)) : Except PyError (Option StatsOut) :=
  if ms.isEmpty then .ok none
  else
    match meanE (ratingsOf ms), medianE (ratingsOf ms),
          maxE (ratingsOf ms), minE (ratingsOf ms) with
    | .ok average, .ok median, .ok mx, .ok mn =>
      .ok (some ⟨average, median,
        (ms.filter (fun p => p.2.rating == mx)).map Prod.fst,
        (ms.filter (fun p => p.2.rating == mn)).map Prod.fst⟩)
    | .error e, _, _, _ => .error e
    | .ok _, .error e, _, _ => .error e
    | .ok _, .ok _, .error e, _ => .error e
    | .ok _, .ok _, .ok _, .error e => .error e

/-- Round half to even (the rounding Python's round() and float formatting
use), modelled on exact rationals. -/
def roundHalfEven (x : ℚ) : ℤ :=
  if x - ⌊x⌋ < 1/2 then ⌊x⌋
  else if 1/2 < x - ⌊x⌋ then ⌊x⌋ + 1
  else if ⌊x⌋ % 2 = 0 then ⌊x⌋ else ⌊x⌋ + 1

/-- Python round(x, 1), on the exact rational value. -/
def pyRound1 (x : ℚ) : ℚ := (roundHalfEven (x * 10) : ℚ) / 10

/-- Rounding to two decimal places, for the spec's displayed 7.67. -/
def pyRound2 (x : ℚ) : ℚ := (roundHalfEven (x * 100) : ℚ) / 100

/-- A left fold of max is an element of the folded list. -/
theorem foldl_max_mem (xs : List ℚ) (x : ℚ) : xs.foldl max x ∈ x :: xs := by
  induction xs generalizing x with
  | nil => simp
  | cons z zs ih =>
    rw [List.foldl_cons]
    rcases List.mem_cons.mp (ih (max x z)) with hm | hm
    · rcases max_choice x z with h | h
      · rw [hm, h]; exact List.mem_cons_self _ _
      · rw [hm, h]; exact List.mem_cons_of_mem _ (List.mem_cons_self _ _)
    · exact List.mem_cons_of_mem _ (List.mem_cons_of_mem _ hm)

/-- A left fold of max bounds every element of the folded list. -/
theorem le_foldl_max (xs : List ℚ) (x : ℚ) : ∀ y ∈ x :: xs, y ≤ xs.foldl max x := by
  induction xs generalizing x with
  | nil => intro y hy; simp at hy; simp [hy]
  | cons z zs ih =>
    intro y hy
    rw [List.foldl_cons]
    have hmax : max x z ≤ zs.foldl max (max x z) :=
      ih (max x z) (max x z) (List.mem_cons_self _ _)
    rcases List.mem_cons.mp hy with h | h
    · rw [h]; exact le_trans (le_max_left x z) hmax
    · rcases List.mem_cons.mp h with h' | h'
      · rw [h']; exact le_trans (le_max_right x z) hmax
      · exact ih (max x z) y (List.mem_cons_of_mem _ h')

/-- A left fold of min is an element of the folded list. -/
theorem foldl_min_mem (xs : List ℚ) (x : ℚ) : xs.foldl min x ∈ x :: xs := by
  induction xs generalizing x with
  | nil => simp
  | cons z zs ih =>
    rw [List.foldl_cons]
    rcases List.mem_cons.mp (ih (min x z)) with hm | hm
    · rcases min_choice x z with h | h
      · rw [hm, h]; exact List.mem_cons_self _ _
      · rw [hm, h]; exact List.mem_cons_of_mem _ (List.mem_cons_self _ _)
    · exact List.mem_cons_of_mem _ (List.mem_cons_of_mem _ hm)

/-- A left fold of min is below every element of the folded list. -/
theorem foldl_min_le (xs : List ℚ) (x : ℚ) : ∀ y ∈ x :: xs, xs.foldl min x ≤ y := by
  induction xs generalizing x with
  | nil => intro y hy; simp at hy; simp [hy]
  | cons z zs ih =>
    intro y hy
    rw [List.foldl_cons]
    have hmin : zs.foldl min (min x z) ≤ min x z :=
      ih (min x z) (min x z) (List.mem_cons_self _ _)
    rcases List.mem_cons.mp hy with h | h
    · rw [h]; exact le_trans hmin (min_le_left x z)
    · rcases List.mem_cons.mp h with h' | h'
      · rw [h']; exact le_trans hmin (min_le_right x z)
      · exact ih (min x z) y (List.mem_cons_of_mem _ h')

/-- On a nonempty list, maxE returns a member that bounds all members. -/
theorem maxE_ok (l : List ℚ) (h : l ≠ []) :
    ∃ mx, maxE l = .ok mx ∧ mx ∈ l ∧ ∀ y ∈ l, y ≤ mx := by
  match l, h with
  | x :: xs, _ =>
    exact ⟨xs.foldl max x, rfl, foldl_max_mem xs x, le_foldl_max xs x⟩

/-- On a nonempty list, minE returns a member below all members. -/
theorem minE_ok (l : List ℚ) (h : l ≠ []) :
    ∃ mn, minE l = .ok mn ∧ mn ∈ l ∧ ∀ y ∈ l, mn ≤ y := by
  match l, h with
  | x :: xs, _ =>
    exact ⟨xs.foldl min x, rfl, foldl_min_mem xs x, foldl_min_le xs x⟩

/-- The rating of a snapshot entry is among the snapshot's ratings. -/
theorem rating_mem_ratingsOf (ms : List (String × MovieInfo))
    (p : String × MovieInfo) (hp : p ∈ ms) : p.2.rating ∈ ratingsOf ms :=
  List.mem_map_of_mem _ hp

/-- On a nonempty snapshot, stats computes the mean, the median value, and
the best/worst filters against the max and min of the ratings. -/
theorem stats_cons_eq (m : String × MovieInfo) (rest : List (String × MovieInfo)) :
    ∃ mx mn : ℚ,
      mx ∈ ratingsOf (m :: rest) ∧ (∀ y ∈ ratingsOf (m :: rest), y ≤ mx)
      ∧ mn ∈ ratingsOf (m :: rest) ∧ (∀ y ∈ ratingsOf (m :: rest), mn ≤ y)
      ∧ stats (m :: rest) = .ok (some
          ⟨(ratingsOf (m :: rest)).sum / ((ratingsOf (m :: rest)).length : ℚ),
           medianVal (ratingsOf (m :: rest)),
           ((m :: rest).filter (fun p => p.2.rating == mx)).map Prod.fst,
           ((m :: rest).filter (fun p => p.2.rating == mn)).map Prod.fst⟩) := by
  have hr : ratingsOf (m :: rest) = m.2.rating :: ratingsOf rest := rfl
  have hlen : (ratingsOf (m :: rest)).length ≠ 0 := by
    rw [hr]
    simp
  refine ⟨(ratingsOf rest).foldl max m.2.rating, (ratingsOf rest).foldl min m.2.rating,
    ?_, ?_, ?_, ?_, ?_⟩
  · rw [hr]; exact foldl_max_mem _ _
  · rw [hr]; exact le_foldl_max _ _
  · rw [hr]; exact foldl_min_mem _ _
  · rw [hr]; exact foldl_min_le _ _
  · have hmean : meanE (ratingsOf (m :: rest)) =
        .ok ((ratingsOf (m :: rest)).sum / ((ratingsOf (m :: rest)).length : ℚ)) := by
      unfold meanE
      rw [if_neg hlen]
    have hmed : medianE (ratingsOf (m :: rest)) = .ok (medianVal (ratingsOf (m :: rest))) := by
      unfold medianE
      rw [if_neg hlen]
    have hmax : maxE (ratingsOf (m :: rest)) = .ok ((ratingsOf rest).foldl max m.2.rating) := by
      rw [hr]; rfl
    have hmin : minE (ratingsOf (m :: rest)) = .ok ((ratingsOf rest).foldl min m.2.rating) := by
      rw [hr]; rfl
    unfold stats
    rw [hmean, hmed, hmax, hmin]
    rfl

/-- The example snapshot from the spec's testable property for stats:
ratings A = 5, B = 9, C = 9. -/
def statsExample : List (String × MovieInfo) :=
  [("A", ⟨2000, 5, Option.none⟩), ("B", ⟨2001, 9, Option.none⟩),
   ("C", ⟨2002, 9, Option.none⟩)]

/-- C5: on a nonempty snapshot, stats yields the arithmetic mean of the
ratings, the median of the ratings (middle of a sorted permutation, or the
average of the two middles), best exactly the titles of maximal rating and
worst exactly the titles of minimal rating; on the spec's example the
result is mean 23/3 (displayed 7.67, rounded to one decimal 7.7),
median 9, best B and C, worst A. -/
theorem stats_mean_median_best_worst (ms : List (String × MovieInfo))
    (hne : ms ≠ []) :
    (∃ out : StatsOut, stats ms = .ok (some out)
      ∧ out.average * (ms.length : ℚ) = (ratingsOf ms).sum
      ∧ (∃ l : List ℚ, List.Perm l (ratingsOf ms) ∧ List.Sorted (· ≤ ·) l ∧
          out.median = (if ms.length % 2 = 1 then l.getD (ms.length / 2) 0
            else (l.getD (ms.length / 2 - 1) 0 + l.getD (ms.length / 2) 0) / 2))
      ∧ (∀ t : String, t ∈ out.best ↔ ∃ info : MovieInfo, (t, info) ∈ ms ∧
          ∀ p ∈ ms, (p : String × MovieInfo).2.rating ≤ info.rating)
      ∧ (∀ t : String, t ∈ out.worst ↔ ∃ info : MovieInfo, (t, info) ∈ ms ∧
          ∀ p ∈ ms, info.rating ≤ (p : String × MovieInfo).2.rating))
    ∧ stats statsExample = .ok (some ⟨23/3, 9, ["B", "C"], ["A"]⟩)
    ∧ pyRound2 ((23 : ℚ)/3) = 767/100 ∧ pyRound1 ((23 : ℚ)/3) = 77/10 := by
  refine ⟨?_, ?_, ?_, ?_⟩
  case refine_2 =>
    have hmean : meanE (ratingsOf statsExample) = .ok ((23 : ℚ)/3) := by
      unfold meanE ratingsOf statsExample
      norm_num
    unfold stats
    rw [hmean]
    rfl
  case refine_3 =>
    unfold pyRound2 roundHalfEven
    norm_num
  case refine_4 =>
    unfold pyRound1 roundHalfEven
    norm_num
  obtain ⟨m, rest, rfl⟩ : ∃ m rest, ms = m :: rest := by
    cases ms with
    | nil => exact absurd rfl hne
    | cons m rest => exact ⟨m, rest, rfl⟩
  obtain ⟨mx, mn, hmxmem, hmxub, hmnmem, hmnlb, hstats⟩ := stats_cons_eq m rest
  refine ⟨_, hstats, ?_, ?_, ?_, ?_⟩
  · have hl : (ratingsOf (m :: rest)).length = (m :: rest).length :=
      List.length_map _ _
    rw [hl]
    refine div_mul_cancel₀ _ ?_
    exact Nat.cast_ne_zero.mpr (by simp)
  · refine ⟨sortQ (ratingsOf (m :: rest)), List.perm_insertionSort _ _,
      List.sorted_insertionSort _ _, ?_⟩
    have hl : (ratingsOf (m :: rest)).length = (m :: rest).length :=
      List.length_map _ _
    unfold medianVal
    rw [hl]
  · intro t
    simp only [List.mem_map, List.mem_filter, beq_iff_eq]
    constructor
    · rintro ⟨p, ⟨hpmem, hprat⟩, hpt⟩
      refine ⟨p.2, ?_, ?_⟩
      · have hpe : (t, p.2) = p := by rw [← hpt]
        rw [hpe]
        exact hpmem
      · intro q hq
        rw [hprat]
        exact hmxub q.2.rating (rating_mem_ratingsOf _ q hq)
    · rintro ⟨info, hmem, hub⟩
      have hinfo : info.rating = mx := by
        refine le_antisymm (hmxub info.rating (rating_mem_ratingsOf _ (t, info) hmem)) ?_
        obtain ⟨q, hqmem, hqval⟩ := List.mem_map.mp hmxmem
        rw [← hqval]
        exact hub q hqmem
      exact ⟨(t, info), ⟨hmem, hinfo⟩, rfl⟩
  · intro t
    simp only [List.mem_map, List.mem_filter, beq_iff_eq]
    constructor
    · rintro ⟨p, ⟨hpmem, hprat⟩, hpt⟩
      refine ⟨p.2, ?_, ?_⟩
      · have hpe : (t, p.2) = p := by rw [← hpt]
        rw [hpe]
        exact hpmem
      · intro q hq
        rw [hprat]
        exact hmnlb q.2.rating (rating_mem_ratingsOf _ q hq)
    · rintro ⟨info, hmem, hlb⟩
      have hinfo : info.rating = mn := by
        refine le_antisymm ?_ (hmnlb info.rating (rating_mem_ratingsOf _ (t, info) hmem))
        obtain ⟨q, hqmem, hqval⟩ := List.mem_map.mp hmnmem
        rw [← hqval]
        exact hlb q hqmem
      exact ⟨(t, info), ⟨hmem, hinfo⟩, rfl⟩

/-- C6: stats on an empty snapshot reports the no-data condition early and
returns without computing; on every snapshot stats returns a value, never
a raised StatisticsError or ValueError, so the arithmetic error branch on
empty input is unreachable. -/
theorem stats_never_raises (ms : List (String × MovieInfo)) :
    (ms = [] → stats ms = .ok none) ∧ ∃ v, stats ms = .ok v := by
  constructor
  · rintro rfl
    rfl
  · cases ms with
    | nil => exact ⟨none, rfl⟩
    | cons m rest =>
      obtain ⟨mx, mn, _, _, _, _, hstats⟩ := stats_cons_eq m rest
      exact ⟨_, hstats⟩

/-- Witness for the C6 theorem: stats on the empty snapshot reports
no data, and on the example snapshot returns a value. -/
theorem stats_never_raises_witness :
    stats [] = .ok none ∧ ∃ v, stats statsExample = .ok v :=
  ⟨(stats_never_raises []).1 rfl, (stats_never_raises statsExample).2⟩

/-- Witness for the C5 theorem: on the spec's example snapshot, stats
returns a value with mean 23/3, median 9, best B and C, worst A. -/
theorem stats_mean_median_best_worst_witness :
    stats statsExample = .ok (some ⟨23/3, 9, ["B", "C"], ["A"]⟩)
    ∧ pyRound1 ((23 : ℚ)/3) = 77/10 :=
  ⟨(stats_mean_median_best_worst statsExample (by decide)).2.1,
   (stats_mean_median_best_worst statsExample (by decide)).2.2.2⟩

/-- Stable insertion of a snapshot entry into a rating-descending list:
the entry goes before the first element whose rating does not exceed its
own, hence after every earlier-inserted entry of equal rating. -/
def insertByRatingDesc (x : String × MovieInfo) :
    List (String × MovieInfo) → List (String × MovieInfo)
  | [] => [x]
  | y :: ys =>
    if y.2.rating ≤ x.2.rating then x :: y :: ys
    else y :: insertByRatingDesc x ys

/-- Embedding of `sort_by_rating` (movies.py:379):
sorted(movies.items(), key=rating, reverse=True).  Python's sort is stable
and reverse=True keeps equal elements in list order, so the result is the
unique stable rating-descending reordering of the snapshot, modelled by a
stable insertion sort. -/
def sort_by_rating (ms : List (String × MovieInfo)) : List (String × MovieInfo) :=
  ms.foldr insertByRatingDesc []

/-- Membership in a stable insertion. -/
theorem mem_insertByRatingDesc (x z : String × MovieInfo)
    (l : List (String × MovieInfo)) :
    z ∈ insertByRatingDesc x l ↔ z = x ∨ z ∈ l := by
  induction l with
  | nil => simp [insertByRatingDesc]
  | cons y ys ih =>
    unfold insertByRatingDesc
    by_cases h : y.2.rating ≤ x.2.rating
    · rw [if_pos h]
      simp
    · rw [if_neg h]
      simp only [List.mem_cons, ih]
      tauto

/-- A stable insertion permutes to a cons. -/
theorem insertByRatingDesc_perm (x : String × MovieInfo)
    (l : List (String × MovieInfo)) :
    List.Perm (insertByRatingDesc x l) (x :: l) := by
  induction l with
  | nil => exact List.Perm.refl _
  | cons y ys ih =>
    unfold insertByRatingDesc
    by_cases h : y.2.rating ≤ x.2.rating
    · rw [if_pos h]
    · rw [if_neg h]
      exact (ih.cons y).trans (List.Perm.swap x y ys)

/-- A stable insertion into a rating-descending list is rating-descending. -/
theorem insertByRatingDesc_pairwise (x : String × MovieInfo)
    (l : List (String × MovieInfo))
    (hl : List.Pairwise (fun a b => b.2.rating ≤ a.2.rating) l) :
    List.Pairwise (fun a b => b.2.rating ≤ a.2.rating) (insertByRatingDesc x l) := by
  induction l with
  | nil => simp [insertByRatingDesc]
  | cons y ys ih =>
    obtain ⟨hy, hys⟩ := List.pairwise_cons.mp hl
    unfold insertByRatingDesc
    by_cases h : y.2.rating ≤ x.2.rating
    · rw [if_pos h]
      refine List.pairwise_cons.mpr ⟨?_, hl⟩
      intro z hz
      rcases List.mem_cons.mp hz with rfl | hz'
      · exact h
      · exact le_trans (hy z hz') h
    · rw [if_neg h]
      refine List.pairwise_cons.mpr ⟨?_, ih hys⟩
      intro z hz
      rcases (mem_insertByRatingDesc x z ys).mp hz with rfl | hz'
      · exact le_of_lt (lt_of_not_le h)
      · exact hy z hz'

/-- Inserting an entry of rating c prepends it to the c-rated sublist:
every entry it passes over has a strictly larger rating. -/
theorem filter_insertByRatingDesc_eq (c : ℚ) (x : String × MovieInfo)
    (l : List (String × MovieInfo)) (hx : x.2.rating = c) :
    (insertByRatingDesc x l).filter (fun e => e.2.rating == c)
      = x :: l.filter (fun e => e.2.rating == c) := by
  induction l with
  | nil => simp [insertByRatingDesc, List.filter, hx]
  | cons y ys ih =>
    unfold insertByRatingDesc
    by_cases h : y.2.rating ≤ x.2.rating
    · rw [if_pos h]
      simp [List.filter_cons, hx]
    · rw [if_neg h]
      have hy : (y.2.rating == c) = false := by
        have : c < y.2.rating := hx ▸ lt_of_not_le h
        simp [ne_of_gt this]
      simp only [List.filter_cons, hy]
      exact ih

/-- Inserting an entry of a different rating leaves the c-rated sublist
unchanged. -/
theorem filter_insertByRatingDesc_ne (c : ℚ) (x : String × MovieInfo)
    (l : List (String × MovieInfo)) (hx : x.2.rating ≠ c) :
    (insertByRatingDesc x l).filter (fun e => e.2.rating == c)
      = l.filter (fun e => e.2.rating == c) := by
  have hxb : (x.2.rating == c) = false := by simp [hx]
  induction l with
  | nil => simp [insertByRatingDesc, List.filter, hxb]
  | cons y ys ih =>
    unfold insertByRatingDesc
    by_cases h : y.2.rating ≤ x.2.rating
    · rw [if_pos h]
      simp [List.filter_cons, hxb]
    · rw [if_neg h]
      simp only [List.filter_cons]
      rw [ih]

/-- C9: sort_by_rating returns the snapshot's movies ordered by rating
descending, and the sort is stable: for every rating value, the entries
carrying that rating appear in the same relative order as in the snapshot. -/
theorem sort_by_rating_desc_stable (ms : List (String × MovieInfo)) :
    List.Perm (sort_by_rating ms) ms
    ∧ List.Pairwise (fun a b => b.2.rating ≤ a.2.rating) (sort_by_rating ms)
    ∧ ∀ c : ℚ, (sort_by_rating ms).filter (fun e => e.2.rating == c)
        = ms.filter (fun e => e.2.rating == c) := by
  refine ⟨?_, ?_, ?_⟩
  · induction ms with
    | nil => exact List.Perm.refl _
    | cons m rest ih =>
      exact (insertByRatingDesc_perm m (sort_by_rating rest)).trans (ih.cons m)
  · induction ms with
    | nil => exact List.Pairwise.nil
    | cons m rest ih =>
      exact insertByRatingDesc_pairwise m (sort_by_rating rest) ih
  · intro c
    induction ms with
    | nil => rfl
    | cons m rest ih =>
      show (insertByRatingDesc m (sort_by_rating rest)).filter _ = _
      by_cases hm : m.2.rating = c
      · rw [filter_insertByRatingDesc_eq c m (sort_by_rating rest) hm, ih]
        have hmb : (m.2.rating == c) = true := by simp [hm]
        simp [List.filter_cons, hmb]
      · rw [filter_insertByRatingDesc_ne c m (sort_by_rating rest) hm, ih]
        have hmb : (m.2.rating == c) = false := by simp [hm]
        simp [List.filter_cons, hmb]

/-- The raw OMDb JSON fields that movies.py consumes; a missing key is
`Option.none` (dict .get default applies at the use site). -/
structure OmdbData where
  titleField : Option String
  yearField : Option String
  ratingField : Option String
  posterField : Option String
deriving DecidableEq

/-- A parsed OMDb JSON body: its `Response` field plus the data fields. -/
structure OmdbJson where
  responseField : Option String
  data : OmdbData
deriving DecidableEq

/-- The body of an HTTP response as seen by `response.json()`:
either not valid JSON or a parsed object. -/
inductive JsonBody where
  | malformed
  | obj (j : OmdbJson)
deriving DecidableEq

/-- Outcome of `requests.get(url, timeout=5)`: either the request itself
raises a RequestException (connection failure, DNS error, timeout, too many
redirects) or a response with a status code and a body arrives. -/
inductive HttpResult where
  | requestExn
  | resp (status : Nat) (body : JsonBody)
deriving DecidableEq

/-- Result of a successful `fetch_movie` call: `notFound` models the
Python `None` return for Response == "False", `record` the raw dict. -/
inductive FetchResult where
  | notFound
  | record (j : OmdbJson)
deriving DecidableEq

/-- Embedding of `fetch_movie(title)` (movie_api.py:19).  The try block
wraps only `requests.get` and `response.raise_for_status()` (which raises
HTTPError, a RequestException, exactly for 4xx/5xx status codes); any
RequestException is re-raised as MovieAPIError.  `data = response.json()`
runs outside the try block, so a malformed body raises the JSON decode
error uncaught.  A parsed body with Response == "False" returns None
(not found); any other parsed body is returned as-is. -/
def fetch_movie (h : HttpResult) : Except PyError FetchResult :=
  match h with
  | .requestExn => .error .movieAPIError
  | .resp status body =>
    if 400 ≤ status ∧ status < 600 then .error .movieAPIError
    else
      match body with
      | .malformed => .error .jsonDecodeError
      | .obj j =>
        if j.responseField == some "False" then .ok .notFound
        else .ok (.record j)

/-- C7 counterexamples: the claim says fetch raises FetchError
(MovieAPIError) exactly when the source is unreachable, times out,
returns a non-2xx status, or returns a malformed response.  Two concrete
inputs refute it.  First, on a 200 response with a non-JSON body,
fetch_movie raises the JSON decode error, which is not the MovieAPIError.
Second, on a 304 Not Modified response — a non-2xx final status that is
not auto-followed as a redirect and for which raise_for_status does not
raise — with a parsed body, fetch_movie returns the record as a normal
result rather than raising FetchError. -/
theorem fetch_movie_malformed_and_304_not_fetch_error :
    (fetch_movie (.resp 200 .malformed) = .error .jsonDecodeError
      ∧ PyError.jsonDecodeError ≠ PyError.movieAPIError
      ∧ fetch_movie (.resp 200 .malformed) ≠ .error .movieAPIError)
    ∧ (fetch_movie (.resp 304 (.obj ⟨Option.none,
          ⟨Option.none, Option.none, Option.none, Option.none⟩⟩))
        = .ok (.record ⟨Option.none,
          ⟨Option.none, Option.none, Option.none, Option.none⟩⟩)
      ∧ fetch_movie (.resp 304 (.obj ⟨Option.none,
          ⟨Option.none, Option.none, Option.none, Option.none⟩⟩))
        ≠ .error .movieAPIError) := by
  refine ⟨⟨rfl, by decide, ?_⟩, rfl, ?_⟩
  · intro h
    exact PyError.noConfusion (Except.error.inj h)
  · intro h
    exact Except.noConfusion h

/-- C7 (amended): fetch_movie raises MovieAPIError exactly when the
request itself fails (unreachable host or timeout) or the response status
is 4xx/5xx; a parsed response whose Response field is the string "False"
is returned as the normal not-found result, never an exception; any other
parsed response yields the raw record; a malformed body on a non-error
status raises the JSON decode error, not MovieAPIError. -/
theorem fetch_movie_error_classification (h : HttpResult) :
    (fetch_movie h = .error .movieAPIError ↔
      (h = .requestExn ∨ ∃ s b, h = .resp s b ∧ 400 ≤ s ∧ s < 600))
    ∧ (∀ s j, h = .resp s j ∧ ¬(400 ≤ s ∧ s < 600) →
        (∀ d, j = .obj d → d.responseField = some "False" →
            fetch_movie h = .ok .notFound)
        ∧ (∀ d, j = .obj d → d.responseField ≠ some "False" →
            fetch_movie h = .ok (.record d))
        ∧ (j = .malformed → fetch_movie h = .error .jsonDecodeError)) := by
  constructor
  · constructor
    · intro he
      match h with
      | .requestExn => exact Or.inl rfl
      | .resp s b =>
        refine Or.inr ⟨s, b, rfl, ?_⟩
        by_contra hs
        simp only [fetch_movie] at he
        rw [if_neg hs] at he
        match b, he with
        | .malformed, he => exact PyError.noConfusion (Except.error.inj he)
        | .obj j, he =>
          have he' : (if (j.responseField == some "False") = true
              then Except.ok FetchResult.notFound
              else Except.ok (FetchResult.record j)) =
                Except.error PyError.movieAPIError := he
          by_cases hr : (j.responseField == some "False") = true
          · rw [if_pos hr] at he'
            exact Except.noConfusion he'
          · rw [if_neg hr] at he'
            exact Except.noConfusion he'
    · rintro (rfl | ⟨s, b, rfl, hs⟩)
      · rfl
      · simp only [fetch_movie]
        rw [if_pos hs]
  · rintro s j ⟨rfl, hs⟩
    refine ⟨?_, ?_, ?_⟩
    · rintro d rfl hr
      simp only [fetch_movie]
      rw [if_neg hs, hr]
      simp
    · rintro d rfl hr
      simp only [fetch_movie]
      rw [if_neg hs, if_neg (by simpa using hr)]
    · rintro rfl
      simp only [fetch_movie]
      rw [if_neg hs]

/-- Witness for the C7 theorem: a raised request exception maps to
MovieAPIError, and a 200 response with Response == "False" yields the
normal not-found result. -/
theorem fetch_movie_error_classification_witness :
    fetch_movie .requestExn = .error .movieAPIError
    ∧ fetch_movie (.resp 200 (.obj ⟨some "False",
        ⟨Option.none, Option.none, Option.none, Option.none⟩⟩)) = .ok .notFound := by
  constructor
  · exact (fetch_movie_error_classification .requestExn).1.mpr (Or.inl rfl)
  · exact ((fetch_movie_error_classification (.resp 200 (.obj ⟨some "False",
      ⟨Option.none, Option.none, Option.none, Option.none⟩⟩))).2
      200 (.obj ⟨some "False", ⟨Option.none, Option.none, Option.none, Option.none⟩⟩)
      ⟨rfl, by decide⟩).1
      ⟨some "False", ⟨Option.none, Option.none, Option.none, Option.none⟩⟩ rfl rfl

/-- Numeric value of a run of decimal digits. -/
def digitsVal (l : List Char) : Nat :=
  l.foldl (fun acc c => acc * 10 + (c.toNat - 48)) 0

/-- Parse of a nonempty all-digit run; fails otherwise. -/
def digitsToNat (l : List Char) : Option Nat :=
  if l ≠ [] && l.all (·.isDigit) then some (digitsVal l) else Option.none

/-- Model of Python int(s) on optionally signed decimal digit strings
(the grammar Python additionally allows — surrounding whitespace,
underscores — never occurs in OMDb year fields). -/
def pyInt (s : String) : Option Int :=
  match s.data with
  | '-' :: rest => (digitsToNat rest).map (fun n => -(n : Int))
  | '+' :: rest => (digitsToNat rest).map (fun n => (n : Int))
  | l => (digitsToNat l).map (fun n => (n : Int))

/-- Decimal-literal core of Python float(s): digits, optionally followed
by a dot and digits, at least one digit overall. -/
def pyFloatCore (l : List Char) : Option ℚ :=
  let ip := l.takeWhile (·.isDigit)
  let rest := l.dropWhile (·.isDigit)
  match rest with
  | [] => if ip.isEmpty then Option.none else some ((digitsVal ip : ℚ))
  | '.' :: frac =>
    if frac.all (·.isDigit) && !(ip.isEmpty && frac.isEmpty) then
      some ((digitsVal ip : ℚ) + (digitsVal frac : ℚ) / ((10 : ℚ) ^ frac.length))
    else Option.none
  | _ => Option.none

/-- Model of Python float(s) on optionally signed decimal literals
(covers OMDb's rating strings such as "8.3"; exponents, inf and nan never
occur there). -/
def pyFloat (s : String) : Option ℚ :=
  match s.data with
  | '-' :: rest => (pyFloatCore rest).map (fun q => -q)
  | '+' :: rest => pyFloatCore rest
  | l => pyFloatCore l

/-- Year selection of the add flow (movies.py:229): int(data.get("Year",
"")) if it parses, else the interactively obtained fallback year. -/
def chooseYear (d : OmdbData) (fallbackYear : Int) : Int :=
  match pyInt (d.yearField.getD "") with
  | some y => y
  | Option.none => fallbackYear

/-- Rating selection of the add flow (movies.py:240): data.get
("imdbRating", "N/A"); the sentinel "N/A" or an unparsable string falls
back to the interactively obtained rating. -/
def chooseRating (d : OmdbData) (fallbackRating : ℚ) : ℚ :=
  let rs := d.ratingField.getD "N/A"
  if rs = "N/A" then fallbackRating
  else
    match pyFloat rs with
    | some r => r
    | Option.none => fallbackRating

/-- Poster selection of the add flow (movies.py:258): data.get("Poster");
a missing, empty (falsy) or "N/A" value is stored as no poster. -/
def choosePoster (d : OmdbData) : Option String :=
  match d.posterField with
  | Option.none => Option.none
  | some p => if p = "" || p = "N/A" then Option.none else some p

/-- Outcome of the `movie_api.fetch_movie(title)` call as seen by the add
flow: a raised MovieAPIError, the None not-found result, or raw data. -/
inductive FetchOutcome where
  | apiError
  | notFound
  | found (d : OmdbData)
deriving DecidableEq

/-- How one run of the movies.py add_movie flow ends. -/
inductive AddFlowResult where
  | alreadyInDb
  | apiUnreachable
  | titleNotFound
  | integrityError
  | added (title : String)
deriving DecidableEq

/-- Embedding of `add_movie()` (movies.py:201): list the user's movies,
reject an input title already present, fetch metadata (abort on
MovieAPIError, report a not-found title), take the canonical API title
(falling back to the input title), select year, rating and poster, and
store the record with the rating rounded to one decimal place.  An
IntegrityError from the storage insert (possible when the canonical title
differs from the input title and is already stored) propagates with no
write. -/
def add_movie_flow (tbl : Table) (uid : Nat) (inputTitle : String)
    (fetched : FetchOutcome) (fallbackYear : Int) (fallbackRating : ℚ) :
    AddFlowResult × Table :=
  if (list_movies tbl uid).any (fun p => p.1 == inputTitle) then
    (.alreadyInDb, tbl)
  else
    match fetched with
    | .apiError => (.apiUnreachable, tbl)
    | .notFound => (.titleNotFound, tbl)
    | .found d =>
      match add_movie tbl uid (d.titleField.getD inputTitle)
          (chooseYear d fallbackYear)
          (pyRound1 (chooseRating d fallbackRating)) (choosePoster d) with
      | (.error _, t) => (.integrityError, t)
      | (.ok _, t) => (.added (d.titleField.getD inputTitle), t)

/-- Looking a key up past an association-list segment that does not
contain it. -/
theorem lookup_append_of_not_mem (l1 l2 : List (String × MovieInfo))
    (k : String) (h : k ∉ l1.map Prod.fst) :
    (l1 ++ l2).lookup k = l2.lookup k := by
  induction l1 with
  | nil => rfl
  | cons p ps ih =>
    have hk : k ≠ p.1 := by
      intro he
      exact h (by simp [he])
    have hkb : (k == p.1) = false := by simpa using hk
    simp only [List.cons_append, List.lookup]
    rw [hkb]
    exact ih (fun hm => h (by simp [List.mem_map] at hm ⊢; tauto))

/-- C8: when the input title is not yet stored for the user and the
canonical API title is fresh as well, the metadata-assisted add flow
persists exactly one record: the canonical title from the source (the
input title only when the source omits Title), the selected year and
poster, and the selected rating rounded to one decimal place; listing the
user afterwards yields exactly that stored (year, rating, poster) under
the canonical title. -/
theorem add_movie_flow_roundtrip (tbl : Table) (uid : Nat)
    (inputTitle : String) (d : OmdbData) (fy : Int) (fr : ℚ)
    (hin : inputTitle ∉ (list_movies tbl uid).map Prod.fst)
    (hapi : (d.titleField.getD inputTitle) ∉ (list_movies tbl uid).map Prod.fst) :
    add_movie_flow tbl uid inputTitle (.found d) fy fr
      = (.added (d.titleField.getD inputTitle),
         tbl ++ [⟨uid, d.titleField.getD inputTitle, chooseYear d fy,
                 pyRound1 (chooseRating d fr), choosePoster d⟩])
    ∧ (list_movies (add_movie_flow tbl uid inputTitle (.found d) fy fr).2 uid).lookup
        (d.titleField.getD inputTitle)
      = some ⟨chooseYear d fy, pyRound1 (chooseRating d fr), choosePoster d⟩
    ∧ (∀ ct, d.titleField = some ct → d.titleField.getD inputTitle = ct) := by
  have hanyin : ((list_movies tbl uid).any (fun p => p.1 == inputTitle)) = false := by
    rw [Bool.eq_false_iff]
    intro ha
    obtain ⟨p, hp, hpe⟩ := List.any_eq_true.mp ha
    exact hin (List.mem_map.mpr ⟨p, hp, by simpa using hpe⟩)
  have hastore : (tbl.any (rowKeyMatches uid (d.titleField.getD inputTitle))) = false := by
    rw [Bool.eq_false_iff]
    intro ha
    obtain ⟨r, hr, hre⟩ := List.any_eq_true.mp ha
    exact hapi ((mem_keys_list_movies tbl uid _).mpr ⟨r, hr, hre⟩)
  have hadd : add_movie tbl uid (d.titleField.getD inputTitle) (chooseYear d fy)
      (pyRound1 (chooseRating d fr)) (choosePoster d)
      = (.ok (), tbl ++ [⟨uid, d.titleField.getD inputTitle, chooseYear d fy,
          pyRound1 (chooseRating d fr), choosePoster d⟩]) := by
    unfold add_movie
    rw [hastore]
    rfl
  have hflow : add_movie_flow tbl uid inputTitle (.found d) fy fr
      = (.added (d.titleField.getD inputTitle),
         tbl ++ [⟨uid, d.titleField.getD inputTitle, chooseYear d fy,
                 pyRound1 (chooseRating d fr), choosePoster d⟩]) := by
    unfold add_movie_flow
    rw [hanyin]
    simp only [Bool.false_eq_true, if_false]
    rw [hadd]
  refine ⟨hflow, ?_, ?_⟩
  · rw [hflow]
    show ((list_movies (tbl ++ [_]) uid).lookup _) = _
    unfold list_movies
    rw [List.filter_append, List.map_append]
    rw [lookup_append_of_not_mem _ _ _ (by
      intro hm
      exact hapi (by
        unfold list_movies
        simpa using hm))]
    have : (List.filter (fun r => r.user_id == uid)
        [(⟨uid, d.titleField.getD inputTitle, chooseYear d fy,
          pyRound1 (chooseRating d fr), choosePoster d⟩ : MovieRow)]) =
        [⟨uid, d.titleField.getD inputTitle, chooseYear d fy,
          pyRound1 (chooseRating d fr), choosePoster d⟩] := by
      simp
    rw [this]
    simp [List.lookup]
  · intro ct hct
    rw [hct]
    rfl

/-- Witness for the C8 theorem: adding input title "batman" to an empty
store with OMDb data Title "Batman", Year "1989", imdbRating "7.5",
Poster "N/A" persists the canonical title "Batman", and listing user 1
afterwards yields the stored record; the canonical year parses to 1989. -/
theorem add_movie_flow_roundtrip_witness :
    (list_movies (add_movie_flow [] 1 "batman"
        (.found ⟨some "Batman", some "1989", some "7.5", some "N/A"⟩) 2000 0).2 1).lookup
        ((⟨some "Batman", some "1989", some "7.5", some "N/A"⟩ : OmdbData).titleField.getD "batman")
      = some ⟨chooseYear ⟨some "Batman", some "1989", some "7.5", some "N/A"⟩ 2000,
          pyRound1 (chooseRating ⟨some "Batman", some "1989", some "7.5", some "N/A"⟩ 0),
          choosePoster ⟨some "Batman", some "1989", some "7.5", some "N/A"⟩⟩
    ∧ chooseYear ⟨some "Batman", some "1989", some "7.5", some "N/A"⟩ 2000 = 1989
    ∧ choosePoster ⟨some "Batman", some "1989", some "7.5", some "N/A"⟩ = Option.none := by
  refine ⟨?_, by decide, by decide⟩
  exact (add_movie_flow_roundtrip [] 1 "batman"
    ⟨some "Batman", some "1989", some "7.5", some "N/A"⟩ 2000 0
    (by simp [list_movies]) (by simp [list_movies])).2.1

/-- Lowercased character list of a string, modelling Python str.lower on
the ASCII titles and queries this program handles. -/
def lowerChars (s : String) : List Char := s.data.map Char.toLower

/-- The needle is a prefix of the hay. -/
def startsWithChars : List Char → List Char → Bool
  | [], _ => true
  | _ :: _, [] => false
  | x :: xs, y :: ys => x == y && startsWithChars xs ys

/-- Python substring containment `needle in hay` (an empty needle is
contained in everything). -/
def containsSub (needle : List Char) : List Char → Bool
  | [] => startsWithChars needle []
  | c :: t => startsWithChars needle (c :: t) || containsSub needle t

/-- Length of the longest common initial run of two character lists. -/
def commonRun : List Char → List Char → Nat
  | a :: as, b :: bs => if a = b then commonRun as bs + 1 else 0
  | _, _ => 0

/-- A common initial run is no longer than the first list. -/
theorem commonRun_le_left (xs ys : List Char) : commonRun xs ys ≤ xs.length := by
  induction xs generalizing ys with
  | nil => cases ys <;> simp [commonRun]
  | cons a as ih =>
    cases ys with
    | nil => simp [commonRun]
    | cons b bs =>
      simp only [commonRun, List.length_cons]
      split
      · have := ih bs
        omega
      · omega

/-- A common initial run is no longer than the second list. -/
theorem commonRun_le_right (xs ys : List Char) : commonRun xs ys ≤ ys.length := by
  induction xs generalizing ys with
  | nil => cases ys <;> simp [commonRun]
  | cons a as ih =>
    cases ys with
    | nil => simp [commonRun]
    | cons b bs =>
      simp only [commonRun, List.length_cons]
      split
      · have := ih bs
        omega
      · omega

/-- Length of the matching run of a and b starting at positions i and j,
confined to the windows a[:ahi] and b[:bhi]. -/
def matchLenAt (a b : List Char) (ahi bhi i j : Nat) : Nat :=
  commonRun ((a.take ahi).drop i) ((b.take bhi).drop j)

/-- A windowed run starting at i ends within the window. -/
theorem matchLenAt_le_left (a b : List Char) (ahi bhi i j : Nat) :
    matchLenAt a b ahi bhi i j ≤ ahi - i := by
  have h1 := commonRun_le_left ((a.take ahi).drop i) ((b.take bhi).drop j)
  have h2 : ((a.take ahi).drop i).length = (a.take ahi).length - i :=
    List.length_drop _ _
  have h3 : (a.take ahi).length ≤ ahi := by
    rw [List.length_take]
    omega
  unfold matchLenAt
  omega

/-- A windowed run starting at j ends within the window. -/
theorem matchLenAt_le_right (a b : List Char) (ahi bhi i j : Nat) :
    matchLenAt a b ahi bhi i j ≤ bhi - j := by
  have h1 := commonRun_le_right ((a.take ahi).drop i) ((b.take bhi).drop j)
  have h2 : ((b.take bhi).drop j).length = (b.take bhi).length - j :=
    List.length_drop _ _
  have h3 : (b.take bhi).length ≤ bhi := by
    rw [List.length_take]
    omega
  unfold matchLenAt
  omega

/-- Keep the strictly longer of two candidate matching blocks; on ties the
earlier candidate in scan order wins, as in difflib's `k > bestsize` test. -/
def betterTriple (best cand : Nat × Nat × Nat) : Nat × Nat × Nat :=
  if best.2.2 < cand.2.2 then cand else best

/-- All candidate blocks (i, j, run length at (i, j)) of the window, in
difflib's scan order: i ascending, then j ascending. -/
def candidateTriples (a b : List Char) (alo ahi blo bhi : Nat) :
    List (Nat × Nat × Nat) :=
  ((List.range (ahi - alo)).map (fun di =>
    (List.range (bhi - blo)).map (fun dj =>
      (alo + di, blo + dj,
       matchLenAt a b ahi bhi (alo + di) (blo + dj))))).flatten

/-- A fold of betterTriple yields the start value or a list element. -/
theorem foldl_betterTriple_mem (l : List (Nat × Nat × Nat))
    (init : Nat × Nat × Nat) :
    l.foldl betterTriple init = init ∨ l.foldl betterTriple init ∈ l := by
  induction l generalizing init with
  | nil => exact Or.inl rfl
  | cons x xs ih =>
    rw [List.foldl_cons]
    rcases ih (betterTriple init x) with h | h
    · rw [h]
      unfold betterTriple
      split
      · exact Or.inr (List.mem_cons_self _ _)
      · exact Or.inl rfl
    · exact Or.inr (List.mem_cons_of_mem _ h)

/-- Embedding of difflib SequenceMatcher.find_longest_match on the window
a[alo:ahi] x b[blo:bhi], with no junk (the queries and titles here are far
below the 200-character autojunk threshold).  Per its contract it returns
the longest matching block, and among those the one starting earliest in
a, then earliest in b — realised here as a first-strict-improvement scan
over all candidate starts in the same order as difflib's inner loop. -/
def findLongestMatch (a b : List Char) (alo ahi blo bhi : Nat) :
    Nat × Nat × Nat :=
  (candidateTriples a b alo ahi blo bhi).foldl betterTriple (alo, blo, 0)

/-- A nonempty best block lies inside the scanned window. -/
theorem findLongestMatch_bounds (a b : List Char) (alo ahi blo bhi i j k : Nat)
    (heq : findLongestMatch a b alo ahi blo bhi = (i, j, k)) (hk : k ≠ 0) :
    alo ≤ i ∧ blo ≤ j ∧ i + k ≤ ahi ∧ j + k ≤ bhi := by
  unfold findLongestMatch at heq
  rcases foldl_betterTriple_mem (candidateTriples a b alo ahi blo bhi)
      (alo, blo, 0) with h | h
  · rw [heq] at h
    exact absurd (congrArg (fun t => t.2.2) h) (by simpa using hk)
  · rw [heq] at h
    unfold candidateTriples at h
    simp only [List.mem_flatten, List.mem_map, List.mem_range] at h
    obtain ⟨inner, ⟨di, hdi, rfl⟩, hmem⟩ := h
    simp only [List.mem_map, List.mem_range] at hmem
    obtain ⟨dj, hdj, hc⟩ := hmem
    have h1 : alo + di = i := congrArg Prod.fst hc
    have h2 : blo + dj = j := congrArg (fun t => t.2.1) hc
    have h3 : matchLenAt a b ahi bhi (alo + di) (blo + dj) = k :=
      congrArg (fun t => t.2.2) hc
    have h4 := matchLenAt_le_left a b ahi bhi (alo + di) (blo + dj)
    have h5 := matchLenAt_le_right a b ahi bhi (alo + di) (blo + dj)
    omega

/-- Embedding of difflib get_matching_blocks, reduced to the total number
of matched characters (the only quantity ratio consumes; difflib's
adjacent-block merging step does not change this total): recursively take
the longest match and recurse left and right of it. -/
def matchingTotal (a b : List Char) (alo ahi blo bhi : Nat) : Nat :=
  match heq : findLongestMatch a b alo ahi blo bhi with
  | (i, j, k) =>
    if hk : k = 0 then 0
    else
      have hb := findLongestMatch_bounds a b alo ahi blo bhi i j k heq hk
      matchingTotal a b alo i blo j + k + matchingTotal a b (i + k) ahi (j + k) bhi
termination_by (ahi - alo) + (bhi - blo)
decreasing_by
  · omega
  · omega

/-- Embedding of SequenceMatcher.ratio(): 2M / T with M the total size of
the matching blocks and T the combined length, and 1 when both sequences
are empty. -/
def ratioQ (a b : List Char) : ℚ :=
  if a.length + b.length = 0 then 1
  else (2 * (matchingTotal a b 0 a.length 0 b.length) : ℚ) / (a.length + b.length)

/-- Python tuple order on (score, word) pairs, as used by heapq.nlargest
inside get_close_matches: first the float, then the string. -/
def tupLt (p q : ℚ × String) : Bool :=
  decide (p.1 < q.1) || (decide (p.1 = q.1) && decide (p.2 < q.2))

/-- Unfolding of the tuple order. -/
theorem tupLt_iff (p q : ℚ × String) :
    tupLt p q = true ↔ p.1 < q.1 ∨ (p.1 = q.1 ∧ p.2 < q.2) := by
  unfold tupLt
  simp

/-- The tuple order is transitive. -/
theorem tupLt_trans (p q r : ℚ × String) (h1 : tupLt p q = true)
    (h2 : tupLt q r = true) : tupLt p r = true := by
  rw [tupLt_iff] at h1 h2 ⊢
  rcases h1 with h1 | ⟨h1e, h1s⟩ <;> rcases h2 with h2 | ⟨h2e, h2s⟩
  · exact Or.inl (lt_trans h1 h2)
  · exact Or.inl (h2e ▸ h1)
  · exact Or.inl (h1e ▸ h2)
  · exact Or.inr ⟨h1e.trans h2e, lt_trans h1s h2s⟩

/-- The tuple order is asymmetric. -/
theorem tupLt_asymm (p q : ℚ × String) (h : tupLt p q = true) :
    tupLt q p = false := by
  rw [Bool.eq_false_iff]
  intro hqp
  rw [tupLt_iff] at h hqp
  rcases h with h | ⟨he, hs⟩ <;> rcases hqp with h' | ⟨he', hs'⟩
  · exact absurd h' (lt_asymm h)
  · exact absurd (he' ▸ h) (lt_irrefl _)
  · exact absurd (he ▸ h') (lt_irrefl _)
  · exact absurd hs' (lt_asymm hs)

/-- Descending stable insertion for (score, word) pairs. -/
def insertRanked (x : ℚ × String) : List (ℚ × String) → List (ℚ × String)
  | [] => [x]
  | y :: ys => if tupLt y x then x :: y :: ys else y :: insertRanked x ys

/-- Embedding of heapq.nlargest's ordering: the pairs sorted descending by
the tuple order (nlargest(n, it) is documented as
sorted(it, reverse=True)[:n]; the take happens at the use site). -/
def sortRankedDesc (l : List (ℚ × String)) : List (ℚ × String) :=
  l.foldr insertRanked []

/-- Membership in a ranked insertion. -/
theorem mem_insertRanked (x z : ℚ × String) (l : List (ℚ × String)) :
    z ∈ insertRanked x l ↔ z = x ∨ z ∈ l := by
  induction l with
  | nil => simp [insertRanked]
  | cons y ys ih =>
    unfold insertRanked
    by_cases h : tupLt y x = true
    · rw [if_pos h]
      simp
    · rw [if_neg h]
      simp only [List.mem_cons, ih]
      tauto

/-- Membership in the ranked sort. -/
theorem mem_sortRankedDesc (z : ℚ × String) (l : List (ℚ × String)) :
    z ∈ sortRankedDesc l ↔ z ∈ l := by
  induction l with
  | nil => exact Iff.rfl
  | cons y ys ih =>
    show z ∈ insertRanked y (sortRankedDesc ys) ↔ _
    rw [mem_insertRanked, ih]
    simp

/-- A ranked insertion into a descending list stays descending. -/
theorem insertRanked_pairwise (x : ℚ × String) (l : List (ℚ × String))
    (hl : List.Pairwise (fun p q => tupLt p q = false) l) :
    List.Pairwise (fun p q => tupLt p q = false) (insertRanked x l) := by
  induction l with
  | nil => simp [insertRanked]
  | cons y ys ih =>
    obtain ⟨hy, hys⟩ := List.pairwise_cons.mp hl
    unfold insertRanked
    by_cases h : tupLt y x = true
    · rw [if_pos h]
      refine List.pairwise_cons.mpr ⟨?_, hl⟩
      intro z hz
      rcases List.mem_cons.mp hz with rfl | hz'
      · exact tupLt_asymm _ _ h
      · rw [Bool.eq_false_iff]
        intro hxz
        exact absurd (tupLt_trans _ _ _ h hxz) (Bool.eq_false_iff.mp (hy z hz'))
    · rw [if_neg h]
      refine List.pairwise_cons.mpr ⟨?_, ih hys⟩
      intro z hz
      rcases (mem_insertRanked x z ys).mp hz with rfl | hz'
      · exact Bool.eq_false_iff.mpr h
      · exact hy z hz'

/-- The ranked sort is descending in the tuple order. -/
theorem sortRankedDesc_pairwise (l : List (ℚ × String)) :
    List.Pairwise (fun p q => tupLt p q = false) (sortRankedDesc l) := by
  induction l with
  | nil => exact List.Pairwise.nil
  | cons y ys ih => exact insertRanked_pairwise y (sortRankedDesc ys) ih

/-- Embedding of difflib.get_close_matches(word, possibilities, n, cutoff)
with no junk: keep the possibilities whose ratio against the word reaches
the cutoff (difflib's real_quick_ratio and quick_ratio pre-tests are upper
bounds of ratio, so the three-fold >= cutoff test is equivalent to
ratio >= cutoff), rank them descending by (score, word) tuple order as
heapq.nlargest does, keep the best n, and drop the scores. -/
def get_close_matches (word : String) (possibilities : List String)
    (n : Nat) (cutoff : ℚ) : List String :=
  ((sortRankedDesc
      ((possibilities.filter (fun x => cutoff ≤ ratioQ x.data word.data)).map
        (fun x => (ratioQ x.data word.data, x)))).take n).map Prod.snd

/-- Results of get_close_matches: at most n titles, each a possibility
whose ratio reaches the cutoff, ranked by ratio descending; no survivors
means an empty result. -/
theorem get_close_matches_spec (word : String) (poss : List String)
    (n : Nat) (cutoff : ℚ) :
    (get_close_matches word poss n cutoff).length ≤ n
    ∧ (∀ t ∈ get_close_matches word poss n cutoff,
        t ∈ poss ∧ cutoff ≤ ratioQ t.data word.data)
    ∧ List.Pairwise
        (fun s t => ratioQ t.data word.data ≤ ratioQ s.data word.data)
        (get_close_matches word poss n cutoff)
    ∧ ((∀ t ∈ poss, ratioQ t.data word.data < cutoff) →
        get_close_matches word poss n cutoff = []) := by
  have hscored : ∀ p ∈ (poss.filter
        (fun x => decide (cutoff ≤ ratioQ x.data word.data))).map
        (fun x => (ratioQ x.data word.data, x)),
      p.1 = ratioQ p.2.data word.data ∧ p.2 ∈ poss
        ∧ cutoff ≤ ratioQ p.2.data word.data := by
    intro p hp
    obtain ⟨x, hx, rfl⟩ := List.mem_map.mp hp
    obtain ⟨hxp, hxc⟩ := List.mem_filter.mp hx
    exact ⟨rfl, hxp, of_decide_eq_true hxc⟩
  refine ⟨?_, ?_, ?_, ?_⟩
  · unfold get_close_matches
    rw [List.length_map, List.length_take]
    omega
  · intro t ht
    obtain ⟨p, hp, rfl⟩ := List.mem_map.mp ht
    have hp' : p ∈ sortRankedDesc _ := List.mem_of_mem_take hp
    have hp'' := (mem_sortRankedDesc _ _).mp hp'
    exact ⟨(hscored p hp'').2.1, (hscored p hp'').2.2⟩
  · unfold get_close_matches
    rw [List.pairwise_map]
    have hsorted := sortRankedDesc_pairwise
      ((poss.filter (fun x => decide (cutoff ≤ ratioQ x.data word.data))).map
        (fun x => (ratioQ x.data word.data, x)))
    have htake := hsorted.sublist (List.take_sublist n _)
    refine htake.imp_of_mem ?_
    intro p q hpmem hqmem hpq
    have hpeq := (hscored p ((mem_sortRankedDesc _ _).mp
      (List.mem_of_mem_take hpmem))).1
    have hqeq := (hscored q ((mem_sortRankedDesc _ _).mp
      (List.mem_of_mem_take hqmem))).1
    rw [← hpeq, ← hqeq]
    have hnlt : ¬ p.1 < q.1 := fun hlt =>
      Bool.eq_false_iff.mp hpq ((tupLt_iff p q).mpr (Or.inl hlt))
    exact le_of_not_lt hnlt
  · intro hall
    unfold get_close_matches
    have hfe : poss.filter (fun x => decide (cutoff ≤ ratioQ x.data word.data)) = [] := by
      rw [List.filter_eq_nil_iff]
      intro x hx
      simp only [decide_eq_true_eq]
      exact not_le_of_lt (hall x hx)
    rw [hfe]
    simp [sortRankedDesc]

/-- Embedding of `search_movie` (movies.py:352), as the list of titles it
prints: first a case-insensitive substring scan of the titles in snapshot
order; only when that finds nothing, difflib.get_close_matches with n = 5
and cutoff 0.4 over the raw titles; an empty result in both phases is
reported as no matches, not an error. -/
def search_movie (ms : List (String × MovieInfo)) (query : String) :
    List String :=
  if ((ms.map Prod.fst).filter
      (fun t => containsSub (lowerChars query) (lowerChars t))).isEmpty then
    get_close_matches query (ms.map Prod.fst) 5 (2/5)
  else
    (ms.map Prod.fst).filter
      (fun t => containsSub (lowerChars query) (lowerChars t))

/-- C4: on a nonempty snapshot, search returns exactly the case-insensitive
substring matches in snapshot order when there are any; only with zero
substring matches does it fall back to fuzzy matching, returning at most 5
snapshot titles of similarity ratio at least 0.4 = 2/5, ranked by ratio
descending; zero matches in both phases yields the empty result. -/
theorem search_movie_two_phase (ms : List (String × MovieInfo))
    (query : String) (hne : ms ≠ []) :
    ((ms.map Prod.fst).filter
        (fun t => containsSub (lowerChars query) (lowerChars t)) ≠ [] →
      search_movie ms query = (ms.map Prod.fst).filter
        (fun t => containsSub (lowerChars query) (lowerChars t)))
    ∧ ((ms.map Prod.fst).filter
        (fun t => containsSub (lowerChars query) (lowerChars t)) = [] →
      search_movie ms query = get_close_matches query (ms.map Prod.fst) 5 (2/5)
      ∧ (search_movie ms query).length ≤ 5
      ∧ (∀ t ∈ search_movie ms query,
          t ∈ ms.map Prod.fst ∧ (2 : ℚ)/5 ≤ ratioQ t.data query.data)
      ∧ List.Pairwise
          (fun s t => ratioQ t.data query.data ≤ ratioQ s.data query.data)
          (search_movie ms query)
      ∧ ((∀ t ∈ ms.map Prod.fst, ratioQ t.data query.data < 2/5) →
          search_movie ms query = [])) := by
  constructor
  · intro h
    unfold search_movie
    rw [if_neg (fun hc => h (List.isEmpty_iff.mp hc))]
  · intro h
    have hsearch : search_movie ms query
        = get_close_matches query (ms.map Prod.fst) 5 (2/5) := by
      unfold search_movie
      rw [if_pos (List.isEmpty_iff.mpr h)]
    obtain ⟨hlen, hmem, hrank, hempty⟩ :=
      get_close_matches_spec query (ms.map Prod.fst) 5 (2/5)
    rw [hsearch]
    exact ⟨rfl, hlen, hmem, hrank, hempty⟩

/-- Witness for the C4 theorem at the spec's example: searching "bat" over
Batman and The Batman Returns finds both as substring matches, in
snapshot order, case-insensitively. -/
theorem search_movie_two_phase_witness :
    search_movie
      [("Batman", ⟨1989, 15/2, Option.none⟩),
       ("The Batman Returns", ⟨1992, 7, Option.none⟩)] "bat"
      = ["Batman", "The Batman Returns"] := by
  have h := (search_movie_two_phase
    [("Batman", ⟨1989, 15/2, Option.none⟩),
     ("The Batman Returns", ⟨1992, 7, Option.none⟩)] "bat" (by decide)).1
    (by decide)
  rw [h]
  decide
